import Mathlib

/-!
Shallow embedding of the alpenity-backend log service.

Two backends exist in the repository:
* the volatile (in-memory) backend in `server.js` (namespace `Mem`);
* the durable (MongoDB) backend in the second source file (namespace `Mongo`).

Records are modelled by the structure `Item`: the fields the code inspects
(`status`, `type`, `draft_workflow_execution_id`, `platform`, `execution_id`)
are explicit `Option String` fields (none = absent), every other caller field
is kept in the association list `rest`.  JavaScript truthiness on these
optional strings (undefined/null/"" are falsy) is `jsTruthy`.

Modelling notes:
* the MongoDB collection is a list of documents in insertion order
  (oldest first); `find().sort(\x7bcreatedAt: -1\x7d)` is modelled as list
  reversal (insertion timestamps are non-decreasing), and
  `findOneAndDelete` without a sort option takes MongoDB natural order,
  modelled as insertion order (first match in the list);
* identifier generation (`Date.now`+`Math.random` in `server.js`, ObjectId
  hex in the durable backend) is modelled by an explicit supply
  `ids : Nat → String`, the n-th id-consuming call reading `ids n`;
* a storage fault of `insertOne` (the only awaited call guarded by the
  per-record try/catch) is modelled by an oracle `faults : Nat → Bool`.
-/

/-- JavaScript truthiness of an optional string: `undefined`/`null`
(modelled `none`) and the empty string are falsy. -/
def jsTruthy : Option String → Bool
  | none => false
  | some s => !(s == "")

/-- JavaScript `a || b` on optional strings. -/
def jsOr (a b : Option String) : Option String :=
  if jsTruthy a then a else b

/-- JavaScript `toLowerCase()`, character by character (all status strings
the code compares against are ASCII). -/
def lowerStr (s : String) : String := ⟨s.data.map Char.toLower⟩

/-- An incoming record / the `data` payload of a stored entry.  The fields
read by the code are explicit; all other caller fields live in `rest`. -/
structure Item where
  status : Option String
  type : Option String
  draft_workflow_execution_id : Option String
  platform : Option String
  execution_id : Option String
  rest : List (String × String)
deriving Repr, DecidableEq

/-- The raw lowercased status string: `(item.status || item.type || "info").toString().toLowerCase()`.
Note: the code applies no trimming. -/
def incomingStatus (item : Item) : String :=
  lowerStr ((jsOr (jsOr item.status item.type) (some "info")).getD "info")

/-- Status normalization as written in both backends of POST /api/logs. -/
def normalizeType (item : Item) : String :=
  if incomingStatus item == "failure" then "failure"
  else if incomingStatus item == "success" then "success"
  else if incomingStatus item == "waiting for approval" ||
          incomingStatus item == "waiting" then "waiting"
  else "info"

/-- `const data = \x7b...item\x7d; delete data.status; delete data.type;` -/
def stripData (item : Item) : Item :=
  { item with status := none, type := none }

/-- A stored log entry as returned to clients: id, normalized type, data.
(The ISO timestamp string is not modelled; creation order is the store
order, which is what every claim about ordering refers to.) -/
structure Entry where
  id : String
  type : String
  data : Item
deriving Repr, DecidableEq

/-- Request body of POST /api/logs: a falsy body (`null`), a single record,
or an array of records.  `if (!body)` rejects exactly the `null` case. -/
inductive ReqBody where
  | null
  | single (item : Item)
  | array (items : List Item)
deriving Repr, DecidableEq

/-- `Array.isArray(body) ? body : [body]` for a non-falsy body. -/
def ReqBody.toItems : ReqBody → List Item
  | .null => []
  | .single i => [i]
  | .array l => l

/-- Response of POST /api/logs: HTTP status and the created entries. -/
structure PostResult where
  statusCode : Nat
  created : List Entry
deriving Repr, DecidableEq

namespace Mem

/-- `addLog` of server.js: unshift the new entry, cap the list at the
newest 1000 entries, return the entry.  `n` indexes the id supply. -/
def addLog (ids : Nat → String) (n : Nat) (logs : List Entry) (ty : String)
    (data : Item) : Entry × List Entry :=
  let e : Entry := ⟨ids n, ty, data⟩
  (e, List.take 1000 (e :: logs))

/-- The findIndex predicate of the in-memory reconciliation: note the
platform equality is ALWAYS part of the predicate (`=== undefined` matches
only entries without a platform when the incoming record has none). -/
def logMatch (item : Item) (e : Entry) : Bool :=
  e.type == "waiting" &&
  e.data.execution_id == item.draft_workflow_execution_id &&
  e.data.platform == item.platform

/-- The in-memory reconciliation step: on a normalized success carrying a
truthy draft_workflow_execution_id, findIndex + splice removes the first
(newest, since the list is newest-first) matching entry; otherwise no-op. -/
def reconcile (item : Item) (logs : List Entry) : List Entry :=
  if normalizeType item == "success" && jsTruthy item.draft_workflow_execution_id
  then logs.eraseP (logMatch item)
  else logs

/-- Per-record processing of POST /api/logs in server.js: normalize,
reconcile, strip, append. -/
def processItem (ids : Nat → String) (n : Nat) (logs : List Entry)
    (item : Item) : Entry × List Entry :=
  let ty := normalizeType item
  let logs1 := reconcile item logs
  addLog ids n logs1 ty (stripData item)

/-- The `for (const item of items)` loop: returns the created entries in
input order and the final store. -/
def processItems (ids : Nat → String) : Nat → List Item → List Entry →
    List Entry × List Entry
  | _, [], logs => ([], logs)
  | n, item :: rest, logs =>
    let r1 := processItem ids n logs item
    let r2 := processItems ids (n + 1) rest r1.2
    (r1.1 :: r2.1, r2.2)

/-- POST /api/logs of server.js. -/
def postLogs (ids : Nat → String) (n : Nat) (body : ReqBody)
    (logs : List Entry) : PostResult × List Entry :=
  match body with
  | .null => (⟨400, []⟩, logs)
  | b =>
    let r := processItems ids n b.toItems logs
    (⟨200, r.1⟩, r.2)

/-- JavaScript `l.slice(0, stop)` (a negative stop counts from the end). -/
def jsSlice0 (l : List Entry) (stop : Int) : List Entry :=
  if stop < 0 then l.take (l.length - stop.natAbs) else l.take stop.toNat

/-- GET /api/logs of server.js: `parseInt(req.query.limit || "100", 10) || 100`
then `logs.slice(0, limit)`.  The query parameter is modelled as the parsed
integer (`none` = absent or NaN). -/
def getLogs (logs : List Entry) (limitQ : Option Int) : List Entry :=
  let lim : Int := match limitQ with
    | none => 100
    | some v => if v == 0 then 100 else v
  jsSlice0 logs lim

/-- POST /api/logs/clear of server.js. -/
def clearLogs (_logs : List Entry) : List Entry := []

end Mem

namespace Mongo

/-- The query built by the durable reconciliation: the platform condition is
added ONLY when the incoming platform is truthy
(`const platform = item.platform || null; if (platform) query["data.platform"] = platform`). -/
def dbMatch (item : Item) (d : Entry) : Bool :=
  d.type == "waiting" &&
  d.data.execution_id == item.draft_workflow_execution_id &&
  (if jsTruthy item.platform then d.data.platform == item.platform else true)

/-- The durable reconciliation step on a present collection:
`findOneAndDelete(query)` removes the first matching document in natural
(modelled: insertion) order; on no match the collection is unchanged. -/
def reconcileDelete (item : Item) (coll : List Entry) : List Entry :=
  coll.eraseP (dbMatch item)

/-- `addLog` of the durable backend: with a collection, `insertOne` appends
the document (a fault makes it throw, modelled by the oracle: no document is
stored and no entry returned); without a collection, a synthesized entry is
returned and nothing is stored. -/
def addLog (ids : Nat → String) (faults : Nat → Bool) (n : Nat)
    (st : Option (List Entry)) (ty : String) (data : Item) :
    Option Entry × Option (List Entry) :=
  match st with
  | some coll =>
    if faults n then (none, some coll)
    else
      let e : Entry := ⟨ids n, ty, data⟩
      (some e, some (coll ++ [e]))
  | none => (some ⟨ids n, ty, data⟩, none)

/-- The reconciliation as guarded in the durable handler: it runs only on a
normalized success carrying a truthy draft id, and only
`if (logsCollection)`; the state stays a collection (possibly unchanged). -/
def reconcileStep (item : Item) (st : Option (List Entry)) :
    Option (List Entry) :=
  match st with
  | some coll =>
    some (if normalizeType item == "success" && jsTruthy item.draft_workflow_execution_id
          then reconcileDelete item coll else coll)
  | none => none

/-- Per-record processing of POST /api/logs in the durable backend:
normalize, reconcile (only `if (logsCollection)`), strip, append inside a
try/catch that drops the entry on an append fault. -/
def processItem (ids : Nat → String) (faults : Nat → Bool) (n : Nat)
    (st : Option (List Entry)) (item : Item) :
    Option Entry × Option (List Entry) :=
  addLog ids faults n (reconcileStep item st) (normalizeType item)
    (stripData item)

/-- The batch loop: created entries (faulted records excluded) in input
order, plus the final state. -/
def processItems (ids : Nat → String) (faults : Nat → Bool) :
    Nat → List Item → Option (List Entry) →
    List Entry × Option (List Entry)
  | _, [], st => ([], st)
  | n, item :: rest, st =>
    let r1 := processItem ids faults n st item
    let r2 := processItems ids faults (n + 1) rest r1.2
    match r1.1 with
    | some e => (e :: r2.1, r2.2)
    | none => (r2.1, r2.2)

/-- POST /api/logs of the durable backend. -/
def postLogs (ids : Nat → String) (faults : Nat → Bool) (n : Nat)
    (body : ReqBody) (st : Option (List Entry)) :
    PostResult × Option (List Entry) :=
  match body with
  | .null => (⟨400, []⟩, st)
  | b =>
    let r := processItems ids faults n b.toItems st
    (⟨200, r.1⟩, r.2)

/-- Response of GET /api/logs in the durable backend. -/
structure ListResult where
  logs : List Entry
  total : Nat
  page : Int
  limit : Int
deriving Repr, DecidableEq

/-- GET /api/logs of the durable backend:
`page = Math.max(1, parseInt(req.query.page || "1", 10))`,
`limit = Math.max(1, Math.min(100, parseInt(req.query.limit || "20", 10)))`,
skip/limit over the newest-first sort; without a collection, the empty
dataset with total 0.  Query parameters are the parsed integers
(`none` = absent). -/
def getLogs (st : Option (List Entry)) (pageQ limitQ : Option Int) :
    ListResult :=
  let page : Int := max 1 (pageQ.getD 1)
  let limit : Int := max 1 (min 100 (limitQ.getD 20))
  let skip : Int := (page - 1) * limit
  match st with
  | some coll =>
    ⟨(coll.reverse.drop skip.toNat).take limit.toNat, coll.length, page, limit⟩
  | none => ⟨[], 0, page, limit⟩

/-- POST /api/logs/clear of the durable backend: `deleteMany(\x7b\x7d)` only when a
collection exists; always responds 200. -/
def clearLogs (st : Option (List Entry)) : Nat × Option (List Entry) :=
  match st with
  | some _ => (200, some [])
  | none => (200, none)

end Mongo

/-- A JSON value for the article endpoints, only as truthy/falsy as the code
needs: `null` (falsy) or an object of fields (truthy). -/
inductive JsValue where
  | null
  | obj (fields : List (String × String))
deriving Repr, DecidableEq

/-- JavaScript truthiness of an article value. -/
def JsValue.truthy : JsValue → Bool
  | .null => false
  | .obj _ => true

/-- POST /api/article: stores the body wholesale, always answers the fixed
success confirmation. -/
def postArticle (body : JsValue) (_slot : JsValue) : (Nat × String) × JsValue :=
  ((200, "Article received and stored."), body)

/-- GET /api/article: the stored object if truthy, else the 404 not-found
response (`none` in the payload position). -/
def getArticle (slot : JsValue) : Nat × Option JsValue :=
  if slot.truthy then (200, some slot) else (404, none)

/-! Spec-side definitions, written from the specification's words, to be
compared with the code-side definitions above. -/

/-- The first truthy value of an optional string, else a default: spec-side
helper for the effective raw status. -/
def firstTruthy : Option String → String → String
  | some s, d => if s = "" then d else s
  | none, d => d

/-- Spec-side status normalization (amended claim C3): the effective raw
status is the status field when truthy, else the type field when truthy,
else "info"; it is case-folded (no trimming) and matched exactly. -/
def specNormalize (item : Item) : String :=
  let s := lowerStr (firstTruthy item.status (firstTruthy item.type "info"))
  if s = "success" then "success"
  else if s = "failure" then "failure"
  else if s = "waiting" ∨ s = "waiting for approval" then "waiting"
  else "info"

/-- Modelled from the spec (§4.4): pagination over a newest-first sequence —
1-based page with default 1 and floor 1; page size with default 20 clamped
to [1, 100]; the slice at ranks (page-1)*limit+1 … page*limit; the total
entry count; the echoed page and limit. -/
def specListLogs (newestFirst : List Entry) (pageQ limitQ : Option Int) :
    Mongo.ListResult :=
  let page : Int := match pageQ with
    | none => 1
    | some p => if p < 1 then 1 else p
  let limit : Int := match limitQ with
    | none => 20
    | some v => if v < 1 then 1 else if 100 < v then 100 else v
  ⟨(newestFirst.drop ((page - 1) * limit).toNat).take limit.toNat,
    newestFirst.length, page, limit⟩

/-- Spec-side expected response entries of a batch under append faults
(claim C7): one entry per non-faulted record, in input order, faulted
records excluded, later records unaffected by earlier faults. -/
def expectedCreated (ids : Nat → String) (faults : Nat → Bool) :
    Nat → List Item → List Entry
  | _, [] => []
  | n, item :: rest =>
    let tail := expectedCreated ids faults (n + 1) rest
    if faults n then tail
    else ⟨ids n, normalizeType item, stripData item⟩ :: tail

/-! Concrete sample values used by counterexamples and witnesses. -/

/-- A record with no recognized fields at all (normalizes to info). -/
def plainItem : Item := ⟨none, none, none, none, none, []⟩

/-- A waiting record for execution 520 on facebook. -/
def waitingItem : Item :=
  ⟨some "waiting", none, none, some "facebook", some "520", []⟩

/-- The stored entry created from `waitingItem`. -/
def waitingEntry : Entry := ⟨"w0", "waiting", stripData waitingItem⟩

/-- A second, distinct stored entry created from another ingestion of
`waitingItem` (same correlation key, different id). -/
def waitingEntryB : Entry := ⟨"w1", "waiting", stripData waitingItem⟩

/-- A success record completing draft 520 that carries no platform field. -/
def successNoPlatform : Item :=
  ⟨some "success", none, some "520", none, none, []⟩

/-- A success record completing draft 520 on facebook. -/
def successPlatform : Item :=
  ⟨some "success", none, some "520", some "facebook", none, []⟩

/-- A waiting record for execution 5 without a platform field. -/
def waitingNoPlat : Item :=
  ⟨some "waiting", none, none, none, some "5", []⟩

/-- A success record completing draft 5 without a platform field. -/
def successNoPlat5 : Item :=
  ⟨some "success", none, some "5", none, none, []⟩

/-- A record whose status has a trailing space (the code does not trim). -/
def successTrailing : Item :=
  ⟨some "SUCCESS ", none, none, none, none, []⟩

/-- A constant id supply: every draw yields the same string. -/
def idConst : Nat → String := fun _ => "x"

/-- An injective id supply. -/
def idNat : Nat → String := fun n => Nat.repr n

/-- The no-fault oracle: every `insertOne` succeeds. -/
def noFaults : Nat → Bool := fun _ => false

/-! Helper lemmas. -/

theorem incomingStatus_eq (item : Item) :
    incomingStatus item =
      lowerStr (firstTruthy item.status (firstTruthy item.type "info")) := by
  unfold incomingStatus firstTruthy
  cases hs : item.status with
  | none =>
    cases ht : item.type with
    | none => simp [jsOr, jsTruthy]
    | some t => by_cases h : t = "" <;> simp [jsOr, jsTruthy, h]
  | some s =>
    by_cases h : s = "" <;>
      cases ht : item.type with
      | none => simp [jsOr, jsTruthy, h]
      | some t => by_cases h2 : t = "" <;> simp [jsOr, jsTruthy, h, h2]

/-- Claim C3 (counterexample): the spec says status normalization trims, so
that "SUCCESS " (trailing space) yields success; the code only lowercases
without trimming, so "SUCCESS " normalizes to info, not success. -/
theorem C3_counterexample :
    normalizeType successTrailing = "info" ∧
    normalizeType successTrailing ≠ "success" := by decide

/-- Claim C3 (amended): status normalization is a total deterministic
function into the closed set; the effective raw status is the status field
when truthy, else the type field when truthy, else "info"; it is
case-folded but NOT trimmed; "success"/"failure"/"waiting"/"waiting for
approval" map to their states, anything else maps to info. -/
theorem C3_normalization_amended (item : Item) :
    normalizeType item = specNormalize item ∧
    (normalizeType item = "success" ∨ normalizeType item = "failure" ∨
     normalizeType item = "waiting" ∨ normalizeType item = "info") := by
  constructor
  · unfold normalizeType specNormalize
    rw [incomingStatus_eq]
    set s := lowerStr (firstTruthy item.status (firstTruthy item.type "info"))
      with hs
    by_cases h1 : s = "success" <;> by_cases h2 : s = "failure" <;>
      by_cases h3 : s = "waiting" <;>
      by_cases h4 : s = "waiting for approval" <;>
      simp_all
  · unfold normalizeType
    split
    · exact Or.inr (Or.inl rfl)
    · split
      · exact Or.inl rfl
      · split
        · exact Or.inr (Or.inr (Or.inl rfl))
        · exact Or.inr (Or.inr (Or.inr rfl))

/-- Claim C4: a falsy (empty/absent) top-level body is rejected with a 400
client error before any per-record processing, creating nothing and leaving
the store of either backend unchanged. -/
theorem C4_empty_body_rejected (ids : Nat → String) (faults : Nat → Bool)
    (n : Nat) (logs : List Entry) (st : Option (List Entry)) :
    Mem.postLogs ids n .null logs = (⟨400, []⟩, logs) ∧
    Mongo.postLogs ids faults n .null st = (⟨400, []⟩, st) :=
  ⟨rfl, rfl⟩

/-- Claim C9: the created entry's data is the incoming record with exactly
the status and type fields removed; every other field — including
draft_workflow_execution_id and platform, though the reconciliation reads
them — is preserved unchanged, in both backends. -/
theorem C9_data_stripping (item : Item) (ids : Nat → String) (n : Nat)
    (logs : List Entry) (coll : List Entry) :
    (stripData item).status = none ∧
    (stripData item).type = none ∧
    (stripData item).draft_workflow_execution_id =
      item.draft_workflow_execution_id ∧
    (stripData item).platform = item.platform ∧
    (stripData item).execution_id = item.execution_id ∧
    (stripData item).rest = item.rest ∧
    (Mem.processItem ids n logs item).1.data = stripData item ∧
    (Mongo.processItem ids noFaults n (some coll) item).1 =
      some ⟨ids n, normalizeType item, stripData item⟩ := by
  refine ⟨rfl, rfl, rfl, rfl, rfl, rfl, rfl, ?_⟩
  unfold Mongo.processItem Mongo.reconcileStep Mongo.addLog
  simp [noFaults]

/-- Claim C10: a create-article request whose body parses to null is
answered with the fixed success confirmation, yet the immediately following
read-article call reports not found — success does not imply subsequent
retrievability. -/
theorem C10_falsy_article_success (slot : JsValue) :
    (postArticle .null slot).1 = (200, "Article received and stored.") ∧
    getArticle (postArticle .null slot).2 = (404, none) :=
  ⟨rfl, rfl⟩

/-- Durable-backend listing agrees with the spec-side pagination function
on every present collection and every pair of query parameters. -/
theorem mongo_getLogs_spec (coll : List Entry) (pageQ limitQ : Option Int) :
    Mongo.getLogs (some coll) pageQ limitQ =
      specListLogs coll.reverse pageQ limitQ := by
  have hp : max 1 (pageQ.getD 1) = (match pageQ with
      | none => (1 : Int)
      | some p => if p < 1 then 1 else p) := by
    cases pageQ with
    | none => decide
    | some p =>
      simp only [Option.getD]
      rw [max_def]
      split_ifs <;> omega
  have hl : max 1 (min 100 (limitQ.getD 20)) = (match limitQ with
      | none => (20 : Int)
      | some v => if v < 1 then 1 else if 100 < v then 100 else v) := by
    cases limitQ with
    | none => decide
    | some v =>
      simp only [Option.getD]
      rw [max_def, min_def]
      split_ifs <;> omega
  unfold Mongo.getLogs specListLogs
  rw [hp, hl, List.length_reverse]

/-- Claim C5: durable-backend listing implements exactly the spec's
pagination: 1-based page (default 1, floor 1: page=0 clamps to 1), limit
default 20 clamped to [1,100] (limit=500 clamps to 100), the newest-first
rank slice, the total count, and the echoed page and limit. -/
theorem C5_pagination (coll : List Entry) (pageQ limitQ : Option Int) :
    Mongo.getLogs (some coll) pageQ limitQ =
      specListLogs coll.reverse pageQ limitQ ∧
    (Mongo.getLogs (some coll) (some 0) (some 500)).page = 1 ∧
    (Mongo.getLogs (some coll) (some 0) (some 500)).limit = 100 := by
  refine ⟨mongo_getLogs_spec coll pageQ limitQ, ?_, ?_⟩ <;>
    rw [mongo_getLogs_spec] <;> rfl

/-- With no collection the batch loop still yields one synthesized entry
per record and leaves the state absent. -/
theorem mongo_processItems_none (ids : Nat → String) (faults : Nat → Bool)
    (items : List Item) : ∀ n : Nat,
    (Mongo.processItems ids faults n items none).1.length = items.length ∧
    (Mongo.processItems ids faults n items none).2 = none := by
  induction items with
  | nil => intro n; exact ⟨rfl, rfl⟩
  | cons it rest ih =>
    intro n
    have h := ih (n + 1)
    simp [Mongo.processItems, Mongo.processItem, Mongo.addLog,
      Mongo.reconcileStep, h.1, h.2]

/-- Claim C6: with the durable backend not configured, nothing crashes and
everything behaves as over an empty store — create-logs returns one
synthesized entry per record (success count = batch size), list-logs
returns zero entries with total = 0, and clear is a no-op. -/
theorem C6_backend_absent (ids : Nat → String) (faults : Nat → Bool)
    (n : Nat) (items : List Item) (item : Item) (pageQ limitQ : Option Int) :
    (Mongo.postLogs ids faults n (.array items) none).1.statusCode = 200 ∧
    (Mongo.postLogs ids faults n (.array items) none).1.created.length =
      items.length ∧
    (Mongo.postLogs ids faults n (.array items) none).2 = none ∧
    (Mongo.postLogs ids faults n (.single item) none).1.created.length = 1 ∧
    (Mongo.getLogs none pageQ limitQ).logs = [] ∧
    (Mongo.getLogs none pageQ limitQ).total = 0 ∧
    Mongo.clearLogs none = (200, none) := by
  have ha := mongo_processItems_none ids faults items n
  have hb := mongo_processItems_none ids faults [item] n
  refine ⟨rfl, ha.1, ha.2, hb.1, rfl, rfl, rfl⟩

/-- Claim C1 (counterexample): starting both backends from the same single
waiting entry (execution 520, platform facebook) and ingesting the same
success record for draft 520 without a platform field, the volatile backend
deletes nothing (its predicate demands platform equality, and facebook is
not undefined) while the durable backend deletes the waiting entry (it
omits the platform condition): an immediate listing shows 2 entries on one
backend and 1 on the other. -/
theorem C1_counterexample :
    (Mem.getLogs
      (Mem.postLogs idConst 0 (.single successNoPlatform) [waitingEntry]).2
      none).length = 2 ∧
    ((Mongo.getLogs
      (Mongo.postLogs idConst noFaults 0 (.single successNoPlatform)
        (some [waitingEntry])).2
      none none).logs).length = 1 := by
  exact ⟨rfl, rfl⟩

/-- Claim C1 (amended): the backends agree on the reconciliation predicate
whenever the incoming success record carries a truthy platform field (their
match predicates then coincide on every entry); when the platform field is
absent they differ — the volatile backend still requires platform equality
(absent matches only absent) while the durable backend drops the condition.
Listing agrees between the volatile store (newest-first) queried with limit
L and the durable backend queried with page 1 and the same L for any L in
[1,100]; beyond that the surfaces differ (the volatile endpoint has no page
parameter, a default limit of 100 and no clamping). -/
theorem C1_amended_agreement :
    (∀ (item : Item) (e : Entry), jsTruthy item.platform = true →
      Mem.logMatch item e = Mongo.dbMatch item e) ∧
    (∀ (coll : List Entry) (L : Int), 1 ≤ L → L ≤ 100 →
      Mem.getLogs coll.reverse (some L) =
        (Mongo.getLogs (some coll) none (some L)).logs) := by
  constructor
  · intro item e h
    unfold Mem.logMatch Mongo.dbMatch
    rw [h]
    simp
  · intro coll L h1 h2
    have hne : (L == (0 : Int)) = false := by
      simp only [beq_eq_false_iff_ne]
      omega
    have hnn : ¬ L < 0 := by omega
    have hlim : max 1 (min 100 ((some L).getD 20)) = L := by
      simp only [Option.getD]
      rw [max_def, min_def]
      split_ifs <;> omega
    simp only [Mem.getLogs, Mem.jsSlice0, Mongo.getLogs, hlim]
    simp [hne, hnn]

/-- Claim C1 (amended) witness at concrete inputs. -/
theorem C1_amended_witness :
    Mem.logMatch successPlatform waitingEntry =
      Mongo.dbMatch successPlatform waitingEntry ∧
    Mem.getLogs [waitingEntry].reverse (some 5) =
      (Mongo.getLogs (some [waitingEntry]) none (some 5)).logs :=
  ⟨C1_amended_agreement.1 successPlatform waitingEntry (by decide),
   C1_amended_agreement.2 [waitingEntry] 5 (by decide) (by decide)⟩

/-- Claim C2 (counterexample): with two distinct waiting entries both
matching the predicate (identical correlation key, truthy platform, so the
two backends' predicates agree), the volatile backend deletes the newest
match, but the durable backend — `findOneAndDelete` without a sort, i.e.
natural (insertion) order — deletes the OLDEST match, keeping the newest:
the volatile store is listed newest-first, the durable collection
oldest-first, and each backend removes its first match. -/
theorem C2_counterexample :
    Mem.reconcile successPlatform [waitingEntry, waitingEntryB] =
      [waitingEntryB] ∧
    Mongo.reconcileStep successPlatform (some [waitingEntryB, waitingEntry])
      = some [waitingEntry] ∧
    waitingEntry ≠ waitingEntryB := by
  refine ⟨by decide, by decide, by decide⟩

/-- Claim C2 (amended): on a normalized success carrying a truthy draft
execution id, each backend deletes at most one entry and proceeds without
error as a silent no-op when nothing matches; when a match exists, each
backend removes exactly one entry, the first match in its own native
find-first order — the most-recently-created match for the volatile
backend (its store is newest-first), the first match in natural (insertion)
order, i.e. the oldest-created when several match, for the durable backend
(so on a single match both delete precisely that entry). -/
theorem C2_reconcile_amended (item : Item) (logs coll : List Entry)
    (h1 : normalizeType item = "success")
    (h2 : jsTruthy item.draft_workflow_execution_id = true) :
    ((∀ e ∈ logs, Mem.logMatch item e = false) →
      Mem.reconcile item logs = logs) ∧
    (∀ e ∈ logs, Mem.logMatch item e = true →
      ∃ m newer older, (∀ b ∈ newer, Mem.logMatch item b = false) ∧
        Mem.logMatch item m = true ∧ logs = newer ++ m :: older ∧
        Mem.reconcile item logs = newer ++ older ∧
        (Mem.reconcile item logs).length + 1 = logs.length) ∧
    ((∀ d ∈ coll, Mongo.dbMatch item d = false) →
      Mongo.reconcileStep item (some coll) = some coll) ∧
    (∀ d ∈ coll, Mongo.dbMatch item d = true →
      ∃ m older newer, (∀ b ∈ older, Mongo.dbMatch item b = false) ∧
        Mongo.dbMatch item m = true ∧ coll = older ++ m :: newer ∧
        Mongo.reconcileStep item (some coll) = some (older ++ newer) ∧
        (older ++ newer).length + 1 = coll.length) := by
  have hg : Mem.reconcile item logs = logs.eraseP (Mem.logMatch item) := by
    unfold Mem.reconcile
    rw [h1, h2]
    rfl
  have hgm : Mongo.reconcileStep item (some coll) =
      some (coll.eraseP (Mongo.dbMatch item)) := by
    unfold Mongo.reconcileStep Mongo.reconcileDelete
    rw [h1, h2]
    rfl
  refine ⟨?_, ?_, ?_, ?_⟩
  · intro hnone
    rw [hg]
    refine List.eraseP_of_forall_not ?_
    intro a ha
    simp [hnone a ha]
  · intro e he hpe
    obtain ⟨m, newer, older, hnm, hm, heq, her⟩ :=
      List.exists_of_eraseP he hpe
    have hlen : 0 < logs.length := by
      cases logs with
      | nil => cases he
      | cons a l => simp
    refine ⟨m, newer, older, ?_, hm, heq, by rw [hg, her], ?_⟩
    · intro b hb
      have := hnm b hb
      simpa using this
    · rw [hg, List.length_eraseP_of_mem he hpe]
      omega
  · intro hnone
    rw [hgm]
    rw [List.eraseP_of_forall_not ?_]
    intro a ha
    simp [hnone a ha]
  · intro d hd hpd
    obtain ⟨m, older, newer, hnm, hm, heq, her⟩ :=
      List.exists_of_eraseP hd hpd
    have hlen : 0 < coll.length := by
      cases coll with
      | nil => cases hd
      | cons a l => simp
    refine ⟨m, older, newer, ?_, hm, heq, by rw [hgm, her], ?_⟩
    · intro b hb
      have := hnm b hb
      simpa using this
    · have hlen2 := List.length_eraseP_of_mem hd hpd
      rw [her] at hlen2
      omega

/-- Claim C2 (amended) witness: a concrete success record deleting the
single matching waiting entry on each backend. -/
theorem C2_amended_witness :
    (∃ m newer older,
      (∀ b ∈ newer, Mem.logMatch successPlatform b = false) ∧
      Mem.logMatch successPlatform m = true ∧
      [waitingEntry] = newer ++ m :: older ∧
      Mem.reconcile successPlatform [waitingEntry] = newer ++ older ∧
      (Mem.reconcile successPlatform [waitingEntry]).length + 1 =
        [waitingEntry].length) ∧
    (∃ m older newer,
      (∀ b ∈ older, Mongo.dbMatch successPlatform b = false) ∧
      Mongo.dbMatch successPlatform m = true ∧
      [waitingEntry] = older ++ m :: newer ∧
      Mongo.reconcileStep successPlatform (some [waitingEntry]) =
        some (older ++ newer) ∧
      (older ++ newer).length + 1 = [waitingEntry].length) :=
  ⟨(C2_reconcile_amended successPlatform [waitingEntry] [waitingEntry]
      (by decide) (by decide)).2.1 waitingEntry (by simp) (by decide),
   (C2_reconcile_amended successPlatform [waitingEntry] [waitingEntry]
      (by decide) (by decide)).2.2.2 waitingEntry (by simp) (by decide)⟩

/-- On a present collection, the batch loop returns exactly the spec-side
expected entries (faulted appends excluded, later records still processed)
and the state remains a collection. -/
theorem mongo_processItems_some (ids : Nat → String) (faults : Nat → Bool) :
    ∀ (items : List Item) (n : Nat) (coll : List Entry),
      ∃ coll2, Mongo.processItems ids faults n items (some coll) =
        (expectedCreated ids faults n items, some coll2) := by
  intro items
  induction items with
  | nil => intro n coll; exact ⟨coll, rfl⟩
  | cons it rest ih =>
    intro n coll
    by_cases hg : (normalizeType it == "success" &&
        jsTruthy it.draft_workflow_execution_id) = true
    · by_cases hf : faults n = true
      · obtain ⟨c2, h2⟩ := ih (n + 1) (Mongo.reconcileDelete it coll)
        exact ⟨c2, by simp [Mongo.processItems, Mongo.processItem,
          Mongo.reconcileStep, Mongo.addLog, hg, hf, h2, expectedCreated]⟩
      · obtain ⟨c2, h2⟩ := ih (n + 1)
          (Mongo.reconcileDelete it coll ++
            [⟨ids n, normalizeType it, stripData it⟩])
        exact ⟨c2, by simp [Mongo.processItems, Mongo.processItem,
          Mongo.reconcileStep, Mongo.addLog, hg, hf, h2, expectedCreated]⟩
    · by_cases hf : faults n = true
      · obtain ⟨c2, h2⟩ := ih (n + 1) coll
        exact ⟨c2, by simp [Mongo.processItems, Mongo.processItem,
          Mongo.reconcileStep, Mongo.addLog, hg, hf, h2, expectedCreated]⟩
      · obtain ⟨c2, h2⟩ := ih (n + 1)
          (coll ++ [⟨ids n, normalizeType it, stripData it⟩])
        exact ⟨c2, by simp [Mongo.processItems, Mongo.processItem,
          Mongo.reconcileStep, Mongo.addLog, hg, hf, h2, expectedCreated]⟩

/-- Claim C7: a storage fault while appending one record of a batch is
isolated — the record is dropped from the reported entries (and so from the
success count), every other record of the batch is still processed in
order, the response stays 200, and the collection survives. -/
theorem C7_fault_isolation (ids : Nat → String) (faults : Nat → Bool)
    (n : Nat) (items : List Item) (coll : List Entry) :
    (Mongo.postLogs ids faults n (.array items) (some coll)).1.created =
      expectedCreated ids faults n items ∧
    (Mongo.postLogs ids faults n (.array items) (some coll)).1.statusCode =
      200 ∧
    (Mongo.postLogs ids faults n (.array items) (some coll)).2 ≠ none := by
  obtain ⟨c2, h2⟩ := mongo_processItems_some ids faults items n coll
  unfold Mongo.postLogs
  simp [ReqBody.toItems, h2]

/-- The volatile batch loop creates one entry per record. -/
theorem mem_processItems_length (ids : Nat → String) :
    ∀ (items : List Item) (n : Nat) (logs : List Entry),
      (Mem.processItems ids n items logs).1.length = items.length := by
  intro items
  induction items with
  | nil => intro n logs; rfl
  | cons it rest ih =>
    intro n logs
    simp [Mem.processItems, ih (n + 1)]

/-- The i-th created entry of a volatile batch comes from the i-th input
record, with the i-th drawn id, the normalized type and the stripped data. -/
theorem mem_processItems_get (ids : Nat → String) :
    ∀ (items : List Item) (n : Nat) (logs : List Entry) (i : Nat)
      (item : Item), items[i]? = some item →
      ((Mem.processItems ids n items logs).1)[i]? =
        some ⟨ids (n + i), normalizeType item, stripData item⟩ := by
  intro items
  induction items with
  | nil => intro n logs i item h; simp at h
  | cons it rest ih =>
    intro n logs i item h
    cases i with
    | zero =>
      simp at h
      subst h
      simp [Mem.processItems, Mem.processItem, Mem.addLog]
    | succ i =>
      simp at h
      have := ih (n + 1) (Mem.processItem ids n logs it).2 i item h
      have harith : n + 1 + i = n + (i + 1) := by omega
      rw [harith] at this
      simpa [Mem.processItems] using this

/-- Taking `k` of a list whose tail part was already capped at `k` is the
same as taking `k` of the uncapped concatenation. -/
theorem take_append_take_cap {α : Type} (k : Nat) (a l : List α) :
    List.take k (a ++ List.take k l) = List.take k (a ++ l) := by
  rw [List.take_append_eq_append_take, List.take_append_eq_append_take,
    List.take_take, min_eq_left (Nat.sub_le k a.length)]

/-- When no record of the batch triggers reconciliation and the store
respects the 1000-entry cap, the final volatile store is the created
entries (newest first) in front of the old ones, capped at 1000. -/
theorem mem_processItems_no_reconcile (ids : Nat → String) :
    ∀ (items : List Item) (n : Nat) (logs : List Entry),
      (∀ it ∈ items, (normalizeType it == "success" &&
        jsTruthy it.draft_workflow_execution_id) = false) →
      logs.length ≤ 1000 →
      (Mem.processItems ids n items logs).2 =
        List.take 1000 ((Mem.processItems ids n items logs).1.reverse ++ logs) := by
  intro items
  induction items with
  | nil =>
    intro n logs _ hcap
    simpa [Mem.processItems] using (List.take_of_length_le hcap).symm
  | cons it rest ih =>
    intro n logs h hcap
    have hg : (normalizeType it == "success" &&
        jsTruthy it.draft_workflow_execution_id) = false :=
      h it (by simp)
    have hrest : ∀ x ∈ rest, (normalizeType x == "success" &&
        jsTruthy x.draft_workflow_execution_id) = false := by
      intro x hx
      exact h x (by simp [hx])
    have hstep : (Mem.processItem ids n logs it).2 =
        List.take 1000 ((Mem.processItem ids n logs it).1 :: logs) := by
      simp [Mem.processItem, Mem.addLog, Mem.reconcile, hg]
    have hcap2 : (Mem.processItem ids n logs it).2.length ≤ 1000 := by
      rw [hstep]
      exact List.length_take_le 1000 _
    have ihr := ih (n + 1) (Mem.processItem ids n logs it).2 hrest hcap2
    simp only [Mem.processItems]
    rw [ihr, hstep, take_append_take_cap, List.reverse_cons,
      List.append_assoc]
    simp

/-- Claim C8 (counterexample): with a colliding id source (timestamp +
randomness repeat), two entries created in one batch share an id, so ids
are not guaranteed pairwise distinct; and a success record later in the
batch can delete a waiting entry created earlier in the same batch, so a
listing immediately afterwards does not show all N created entries. -/
theorem C8_counterexample :
    (Mem.processItems idConst 0 [plainItem, plainItem] []).1.map Entry.id =
      ["x", "x"] ∧
    ¬ ((Mem.processItems idConst 0 [plainItem, plainItem] []).1.map
        Entry.id).Nodup ∧
    (Mem.processItems idConst 0 [plainItem, plainItem] []).1.length = 2 ∧
    (Mem.processItems idConst 0 [waitingNoPlat, successNoPlat5] []).1.length
      = 2 ∧
    (Mem.processItems idConst 0 [waitingNoPlat, successNoPlat5] []).2.length
      = 1 := by
  refine ⟨rfl, ?_, rfl, rfl, rfl⟩
  decide

/-- Claim C8 (amended): a batch of N records yields exactly N created
entries, in input order (the i-th from the i-th record, with the i-th
drawn id); the ids are pairwise distinct whenever the id source draws
pairwise distinct values (which the timestamp+randomness source of the code
does not itself guarantee); and when no record of the batch triggers
reconciliation, a listing right afterwards shows the created entries
newest-first in front of the older ones, subject to the 1000-entry cap. -/
theorem C8_batch_amended (ids : Nat → String) (n : Nat) (items : List Item)
    (logs : List Entry) (created final : List Entry)
    (hrun : Mem.processItems ids n items logs = (created, final)) :
    created.length = items.length ∧
    (∀ (i : Nat) (item : Item), items[i]? = some item →
      created[i]? = some ⟨ids (n + i), normalizeType item, stripData item⟩) ∧
    ((∀ i, i < items.length → ∀ j, j < items.length →
        ids (n + i) = ids (n + j) → i = j) →
      created.Pairwise (fun a b => a.id ≠ b.id)) ∧
    ((∀ it ∈ items, (normalizeType it == "success" &&
        jsTruthy it.draft_workflow_execution_id) = false) →
      logs.length ≤ 1000 →
      final = List.take 1000 (created.reverse ++ logs)) := by
  have hc : (Mem.processItems ids n items logs).1 = created := by rw [hrun]
  have hf : (Mem.processItems ids n items logs).2 = final := by rw [hrun]
  have hlen : created.length = items.length := by
    rw [← hc]
    exact mem_processItems_length ids items n logs
  have hget : ∀ (i : Nat) (item : Item), items[i]? = some item →
      created[i]? = some ⟨ids (n + i), normalizeType item, stripData item⟩ := by
    intro i item h
    rw [← hc]
    exact mem_processItems_get ids items n logs i item h
  refine ⟨hlen, hget, ?_, ?_⟩
  · intro hinj
    rw [List.pairwise_iff_getElem]
    intro i j hi hj hij
    have hi2 : i < items.length := by omega
    have hj2 : j < items.length := by omega
    have hgi := hget i items[i] (by simp [hi2])
    have hgj := hget j items[j] (by simp [hj2])
    have hci : created[i] =
        ⟨ids (n + i), normalizeType items[i], stripData items[i]⟩ :=
      List.getElem_eq_iff.mpr hgi
    have hcj : created[j] =
        ⟨ids (n + j), normalizeType items[j], stripData items[j]⟩ :=
      List.getElem_eq_iff.mpr hgj
    rw [hci, hcj]
    intro heq
    have : i = j := hinj i hi2 j hj2 heq
    omega
  · intro hno hcap
    rw [← hf, ← hc]
    exact mem_processItems_no_reconcile ids items n logs hno hcap

/-- Claim C8 (amended) witness: a two-record batch with an injective id
source, on an empty store. -/
theorem C8_batch_amended_witness :
    (Mem.processItems idNat 0 [plainItem, plainItem] []).1.length = 2 ∧
    (Mem.processItems idNat 0 [plainItem, plainItem] []).1[0]? =
      some ⟨idNat 0, normalizeType plainItem, stripData plainItem⟩ ∧
    (Mem.processItems idNat 0 [plainItem, plainItem] []).1.Pairwise
      (fun a b => a.id ≠ b.id) ∧
    (Mem.processItems idNat 0 [plainItem, plainItem] []).2 =
      List.take 1000
        ((Mem.processItems idNat 0 [plainItem, plainItem] []).1.reverse ++ []) := by
  obtain ⟨h1, h2, h3, h4⟩ :=
    C8_batch_amended idNat 0 [plainItem, plainItem] [] _ _ rfl
  exact ⟨h1, h2 0 plainItem (by decide), h3 (by decide),
    h4 (by decide) (by decide)⟩
